import Mathlib

/-!
# The chat example of the libp2p repository (`examples/chat/main.go`)

A shallow embedding of `chatProtocol.Run`, `chatProtocol.handleMsg`,
`chatProtocol.sendMessage` and `chat`, with the properties of the chat
protocol proved over it.

Conventions of the embedding.

* A Go `string` and a Go `[]byte` are both a list of bytes (`Bytes`); the
  conversions `[]byte(txt)` and `string(bs)` are the identity.
* Everything the program can observe or change is a field of `World`: the
  `chatProtocol` value (the registry `ps` and the server handle), the bytes
  written to standard output and the log of `WriteMessage` calls.
* A Go map is the list of its entries, in the order in which `range` visits
  them.  Go leaves that order unspecified; no theorem below depends on it
  beyond naming the entries in the order of the list.
* The goroutine executing `Run` is a small-step machine (`Run.step`) driven
  by a list of events, so that the transport can deliver frames and fire the
  close signal between two steps of the loop.
* The registry under the goroutines of several Runners is a second machine
  (`Shared.step`): the test of `cp.ps`, the `make`, the insertion, the
  `defer` statement and the deferred `delete` of every Runner are separate
  steps on the shared field `cp.ps`, a map being a reference into a heap.
-/

namespace Chat

/-! ## Bytes, text and formatting -/

/-- A Go `string` or `[]byte`: the sequence of its bytes. -/
abbrev Bytes := List Nat

/-- The bytes of an ASCII string literal of the source. -/
def str (s : String) : Bytes := s.toList.map Char.toNat

/-- The Go function `strings.HasPrefix`. -/
def hasPrefix (s pre : Bytes) : Bool := pre.isPrefixOf s

/-- The Go function `strings.Split(s, sep)` for a separator of one byte: the
pieces of `s` between the occurrences of `sep`, one more piece than there are
occurrences. -/
def Split (s : Bytes) (sep : Nat) : List Bytes :=
  match s with
  | [] => [[]]
  | c :: rest =>
    if c = sep then [] :: Split rest sep
    else
      match Split rest sep with
      | [] => [[c]]
      | piece :: pieces => (c :: piece) :: pieces

/-- One lowercase hexadecimal digit, as its ASCII code. -/
def hexDigit (n : Nat) : Nat := if n < 10 then 48 + n else 87 + n

/-- The verb `%x` of Go on a byte slice: two lowercase hexadecimal digits per
byte, no separator. -/
def hex (bs : Bytes) : Bytes :=
  bs.flatMap (fun b => [hexDigit (b / 16 % 16), hexDigit (b % 16)])

/-- The bytes one verb of `fmt.Printf` produces for one operand: `%x` (byte
120) prints a byte slice in hexadecimal; `%s` prints the bytes of a string
operand (for an operand with a `String()` method, of its rendering). -/
def formatVerb (verb : Nat) (operand : Bytes) : Bytes :=
  if verb = 120 then hex operand else operand

/-- The function `fmt.Sprintf` for the verbs `%x` and `%s`: literal bytes are
copied, a verb consumes the next operand. Every call of the source passes as
many operands as its format has verbs. -/
def Sprintf (format : Bytes) (operands : List Bytes) : Bytes :=
  match format with
  | [] => []
  | [c] => [c]
  | c :: v :: rest =>
    if c = 37 then
      match operands with
      | [] => Sprintf rest []
      | a :: more => formatVerb v a ++ Sprintf rest more
    else c :: Sprintf (v :: rest) operands

/-- The function `fmt.Sprintln` on operands already rendered: a space between
two operands, a newline at the end. -/
def Sprintln (operands : List Bytes) : Bytes :=
  (operands.intersperse [32]).flatten ++ [10]

/-! ## The data model -/

/-- The type `discover.NodeId`, whose declaration is outside this file: a
peer identity, the sequence of its bytes. -/
abbrev NodeId := Bytes

/-- A Go `error` value that is not nil, by its message. -/
abbrev Err := Bytes

/-- A frame received on a peer's protocol channel (`mr` in `handleMsg`): its
type tag and the pair that `mr.ReadAll()` returns. -/
structure Msg where
  type : Nat
  ReadAll : Bytes × Option Err
deriving DecidableEq

/-- The static part of a `p2p.Peer` session: its identity and the result of
`WriteMessage` on it (`none` is the nil error). -/
structure Peer where
  ID : NodeId
  WriteMessage : Nat → Bytes → Option Err

/-- The dynamic part of a `p2p.Peer` session, as its goroutine sees it.
Modelled from the spec: the declaration of `p2p.Peer` is outside this file;
the close signal of a session is an event that, once fired, stays ready
(`CloseCh()` is a closed channel), and `GetProtocolMsgCh()` yields the frames
the transport delivered, in order. -/
structure Session where
  closed : Bool
  inbox : List Msg

/-- The type `discover.Node`: the identity of a node and its rendering as a
connect URI. -/
structure Node where
  ID : NodeId
  uri : Bytes
deriving DecidableEq

/-- A request made to the `p2p.Server`. -/
inductive Request where
  | AddPeer (n : Node)
  | RemovePeer (nid : NodeId)
deriving DecidableEq

/-- The `p2p.Server` handle: the local node that `Node()` returns and the
requests made so far. -/
structure Server where
  node : Node
  requests : List Request

/-- The functions of package `discover` that `chat` calls, and the rendering
of an identity under the verb `%s`. -/
structure Discover where
  ParseNode : Bytes → Except Err Node
  Hex2NodeId : Bytes → Except Err NodeId
  idString : NodeId → Bytes

/-- A Go map from `discover.NodeId` to `p2p.Peer`: its entries, keys unique,
in iteration order. -/
abbrev PeerMap := List (NodeId × Peer)

/-- The statement `m[k] = v` on a map. -/
def PeerMap.set (m : PeerMap) (k : NodeId) (v : Peer) : PeerMap :=
  (k, v) :: m.filter (fun e => e.1 ≠ k)

/-- The builtin `delete(m, k)` on a map. -/
def PeerMap.delete (m : PeerMap) (k : NodeId) : PeerMap :=
  m.filter (fun e => e.1 ≠ k)

/-- The struct `chatProtocol`; `ps = none` is the nil map. -/
structure chatProtocol where
  ps : Option PeerMap
  server : Server

/-- The entries `range cp.ps` visits; none for a nil map. -/
def chatProtocol.entries (cp : chatProtocol) : PeerMap := cp.ps.getD []

/-- The identities registered in `cp.ps`. -/
def chatProtocol.keys (cp : chatProtocol) : List NodeId := cp.entries.map Prod.fst

/-- One call of `WriteMessage`: the session written to, the type tag and the
payload. -/
structure Write where
  peer : NodeId
  type : Nat
  payload : Bytes
deriving DecidableEq

/-- All the state the program reads or changes. -/
structure World where
  cp : chatProtocol
  stdout : Bytes
  sent : List Write

/-- The call `fmt.Printf(format, operands...)`. -/
def World.Printf (w : World) (format : Bytes) (operands : List Bytes) : World :=
  { w with stdout := w.stdout ++ Sprintf format operands }

/-- The call `fmt.Println(operands...)`. -/
def World.Println (w : World) (operands : List Bytes) : World :=
  { w with stdout := w.stdout ++ Sprintln operands }

/-- The call `p.WriteMessage(typ, payload)`: the attempt is logged, the
session's result is returned. -/
def World.WriteMessage (w : World) (p : Peer) (typ : Nat) (payload : Bytes) :
    World × Option Err :=
  ({ w with sent := w.sent ++ [⟨p.ID, typ, payload⟩] }, p.WriteMessage typ payload)

/-! ## The operations -/

/-- How a call ends: it returns an `error` (`none` is nil) or it panics. -/
inductive Outcome where
  | ret (err : Option Err)
  | panic
deriving DecidableEq

/-- Which case of the `select` in `handleMsg` was taken. -/
inductive Sel where
  | closeCh
  | msgCh (mr : Msg)

/-- The method `chatProtocol.handleMsg`, after its `select` has taken the
case `sel`. The slice expressions `nId[:3]` and `nId[len(nId)-3:]` panic on
an identity of fewer than 3 bytes. -/
def handleMsg (w : World) (p : Peer) (sel : Sel) : World × Outcome :=
  match sel with
  | .closeCh => (w, .ret none)
  | .msgCh mr =>
    if mr.type = 4 then
      let bs := mr.ReadAll.1
      let nId := p.ID
      if 3 ≤ nId.length then
        (w.Printf (str "<(%x...%x): %s\n")
           [nId.take 3, nId.drop (nId.length - 3), bs], .ret none)
      else (w, .panic)
    else (w, .ret none)

/-- The method `chatProtocol.sendMessage`. -/
def sendMessage (w : World) (txt : Bytes) : World :=
  w.cp.entries.foldl
    (fun w e =>
      match w.WriteMessage e.2 4 txt with
      | (w, some _) => w
      | (w, none) => w)
    w

/-- The loop `for pId, _ := range cp.ps` of the command `peers`. -/
def printPeers (d : Discover) (w : World) : World :=
  w.cp.entries.foldl
    (fun w e => w.Printf (str "peer id: %s\n") [d.idString e.1])
    w

/-- The call `cp.server.AddPeer(n)`. -/
def World.AddPeer (w : World) (n : Node) : World :=
  { w with cp := { w.cp with server :=
      { w.cp.server with requests := w.cp.server.requests ++ [.AddPeer n] } } }

/-- The call `cp.server.RemovePeer(nid)`. -/
def World.RemovePeer (w : World) (nid : NodeId) : World :=
  { w with cp := { w.cp with server :=
      { w.cp.server with requests := w.cp.server.requests ++ [.RemovePeer nid] } } }

/-- The function `chat`. A line that takes none of the four command branches
leaves the outer `if` and reaches `cp.sendMessage(txt)`. -/
def chat (d : Discover) (w : World) (txt : Bytes) : World :=
  if hasPrefix txt (str "/") then
    let cs := Split (txt.drop 1) 32
    let command := cs.headD []
    if command = str "peers" then
      printPeers d w
    else if command = str "addpeer" ∧ cs.length = 2 ∧ cs.getD 1 [] ≠ [] then
      match d.ParseNode (cs.getD 1 []) with
      | .error err => w.Println [str "addperr err: ", err]
      | .ok n => w.AddPeer n
    else if command = str "rmpeer" ∧ cs.length = 2 ∧ cs.getD 1 [] ≠ [] then
      match d.Hex2NodeId (cs.getD 1 []) with
      | .error err => w.Println [str "rmperr err: ", err]
      | .ok nid => w.RemovePeer nid
    else if command = str "info" then
      let node := w.cp.server.node
      let nId := node.ID
      (w.Printf (str "nodeId: %s\n") [d.idString nId]).Printf
        (str "connect url: %s\n") [node.uri]
    else sendMessage w txt
  else sendMessage w txt

/-- The statements of `Run` before its loop: the map is made if it is nil
and the session is stored under its identity. -/
def register (cp : chatProtocol) (p : Peer) : chatProtocol :=
  let ps := match cp.ps with
    | none => ([] : PeerMap)
    | some m => m
  { cp with ps := some (PeerMap.set ps p.ID p) }

/-- The deferred call `delete(cp.ps, p.ID())` of `Run`, run when `Run`
leaves by any path. -/
def unregister (cp : chatProtocol) (id : NodeId) : chatProtocol :=
  { cp with ps := cp.ps.map (fun m => PeerMap.delete m id) }

/-- Where the goroutine executing `Run` stands: before the `select` on the
close signal at the head of the loop, inside `handleMsg` before its `select`,
or after `Run` has left. -/
inductive Pc where
  | loopHead
  | inHandleMsg
  | exited (o : Outcome)
deriving DecidableEq

/-- The goroutine executing `Run(p)`: the world, the channels of `p`, and
the program point. -/
structure Proc where
  w : World
  s : Session
  pc : Pc

/-- What happens next: the transport delivers a frame to the session, the
transport fires the close signal, or the goroutine runs to its next program
point. When both cases of the `select` in `handleMsg` are ready Go takes one
of them at random: `pickClose` says whether it is the close case. -/
inductive Event where
  | deliver (mr : Msg)
  | closeSignal
  | step (pickClose : Bool)

/-- The `select` of `handleMsg` on the session's channels: the case taken
and the session after it, or `none` while neither case is ready. -/
def Session.select (s : Session) (pickClose : Bool) : Option (Sel × Session) :=
  match s.closed, s.inbox with
  | false, [] => none
  | true, [] => some (.closeCh, s)
  | false, mr :: rest => some (.msgCh mr, { s with inbox := rest })
  | true, mr :: rest =>
    if pickClose then some (.closeCh, s)
    else some (.msgCh mr, { s with inbox := rest })

/-- The goroutine leaves `Run` with outcome `o`: the deferred `delete`
runs. -/
def Run.leave (w : World) (s : Session) (p : Peer) (o : Outcome) : Proc :=
  { w := { w with cp := unregister w.cp p.ID }, s := s, pc := .exited o }

/-- The goroutine enters `Run(p)` and reaches the head of the loop. -/
def Run.enter (w : World) (p : Peer) (s : Session) : Proc :=
  { w := { w with cp := register w.cp p }, s := s, pc := .loopHead }

/-- One event of the execution of `Run(p)`. At the head of the loop the
close signal is polled (`select` with a `default` case); in `handleMsg` the
`select` blocks while neither case is ready. -/
def Run.step (p : Peer) (c : Proc) (ev : Event) : Proc :=
  match ev with
  | .deliver mr => { c with s := { c.s with inbox := c.s.inbox ++ [mr] } }
  | .closeSignal => { c with s := { c.s with closed := true } }
  | .step pickClose =>
    match c.pc with
    | .loopHead =>
      if c.s.closed then Run.leave c.w c.s p (.ret none)
      else { c with pc := .inHandleMsg }
    | .inHandleMsg =>
      match c.s.select pickClose with
      | none => c
      | some (sel, s) =>
        match handleMsg c.w p sel with
        | (w, .ret none) => { w := w, s := s, pc := .loopHead }
        | (w, .ret (some err)) => Run.leave w s p (.ret (some err))
        | (w, .panic) => Run.leave w s p .panic
    | .exited _ => c

/-- The method `chatProtocol.Run` on the session `p`, executed along the
events `evs`. -/
def Run (w : World) (p : Peer) (s : Session) (evs : List Event) : Proc :=
  evs.foldl (Run.step p) (Run.enter w p s)

/-! ## Vocabulary of the properties -/

/-- The command a line names: the first piece of the text after `/`. -/
def commandName (txt : Bytes) : Bytes := (Split (txt.drop 1) 32).headD []

/-- The arguments of a command line: the pieces after the first. -/
def commandArgs (txt : Bytes) : List Bytes := (Split (txt.drop 1) 32).tail

/-- Whether the arguments of a command line are exactly one argument that is
not empty. -/
def oneArgument : List Bytes → Bool
  | [a] => !a.isEmpty
  | _ => false

/-- Whether an event is a step of the goroutine. -/
def Event.isStep : Event → Bool
  | .step _ => true
  | _ => false

/-- The program point is at most `n` steps away from `Run` having returned
nil, once the close signal has fired. -/
def settled (n : Nat) (pc : Pc) : Prop :=
  pc = .exited (.ret none) ∨ (1 ≤ n ∧ pc = .loopHead) ∨ (2 ≤ n ∧ pc = .inHandleMsg)

/-! ## The registry under concurrent Runners -/

/-- Where the goroutine of one Runner stands among the statements of `Run`
that touch `cp.ps`: before the test `cp.ps == nil`, before `cp.ps = make(...)`
(the test found nil), before the insertion `cp.ps[p.ID()] = p`, before the
`defer` statement (which evaluates `cp.ps` and `p.ID()`), in the loop with
the deferred `delete` pending on the map it evaluated, or after `Run` has
left. -/
inductive RunnerPc where
  | atCheck
  | atMake
  | atInsert
  | atDefer
  | inLoop (deferred : Option Nat)
  | left
deriving DecidableEq

/-- The state shared by the goroutines of all Runners: the maps made so far
(a map value of Go is a reference, here the index of the map in `heap`), the
field `cp.ps` (nil or the reference of a map), and the program point of
every Runner. -/
structure Shared where
  heap : List PeerMap
  ps : Option Nat
  pc : Nat → RunnerPc

/-- The map a read of `cp.ps` sees. -/
def Shared.registry (s : Shared) : PeerMap :=
  match s.ps with
  | none => []
  | some a => s.heap.getD a []

/-- The identities a read of `cp.ps` sees registered. -/
def Shared.keys (s : Shared) : List NodeId := s.registry.map Prod.fst

/-- The Runner of `peers[i]` executes its next statement on `cp.ps`. The
statements of lines 28 to 32 of `Run` are separate steps, so that the
statements of other Runners can come between them; the deferred `delete`
runs when the Runner leaves its loop, on the map the `defer` statement
evaluated. An insertion into a nil map panics before the `defer` statement
is reached, so the Runner leaves without a deletion. -/
def Shared.step (peers : List Peer) (s : Shared) (i : Nat) : Shared :=
  match peers[i]? with
  | none => s
  | some p =>
    match s.pc i with
    | .atCheck =>
      { s with pc := Function.update s.pc i (if s.ps = none then .atMake else .atInsert) }
    | .atMake =>
      { heap := s.heap ++ [[]], ps := some s.heap.length,
        pc := Function.update s.pc i .atInsert }
    | .atInsert =>
      match s.ps with
      | none => { s with pc := Function.update s.pc i .left }
      | some a =>
        { s with heap := s.heap.set a (PeerMap.set (s.heap.getD a []) p.ID p),
                 pc := Function.update s.pc i .atDefer }
    | .atDefer => { s with pc := Function.update s.pc i (.inLoop s.ps) }
    | .inLoop deferred =>
      { s with heap := match deferred with
                 | none => s.heap
                 | some a => s.heap.set a (PeerMap.delete (s.heap.getD a []) p.ID),
               pc := Function.update s.pc i .left }
    | .left => s

/-- A session with identity bytes `0xAABBCCDDEEFF` whose writes succeed. -/
def peerA : Peer := { ID := [0xAA, 0xBB, 0xCC, 0xDD, 0xEE, 0xFF], WriteMessage := fun _ _ => none }

/-- A session whose every write fails. -/
def peerB : Peer := { ID := [1, 2, 3, 4], WriteMessage := fun _ _ => some (str "broken pipe") }

/-- A third session, whose writes succeed. -/
def peerC : Peer := { ID := [9, 8, 7, 6, 5], WriteMessage := fun _ _ => none }

/-- The local server of the examples. -/
def server0 : Server := { node := { ID := [0, 0, 0, 1], uri := str "pnode://00000001@127.0.0.1:1" }, requests := [] }

/-- A freshly made `chatProtocol` (as in `main`): the map is nil. -/
def world0 : World := { cp := { ps := none, server := server0 }, stdout := [], sent := [] }

/-- A world in which the three sessions are registered. -/
def world3 : World :=
  { cp := { ps := some [(peerA.ID, peerA), (peerB.ID, peerB), (peerC.ID, peerC)], server := server0 },
    stdout := [], sent := [] }

/-- A chat-text frame with payload `hi`. -/
def msgHi : Msg := { type := 4, ReadAll := (str "hi", none) }

/-- A chat-text frame whose `ReadAll` returns the bytes `hi` together with an
error. -/
def msgBroken : Msg := { type := 4, ReadAll := (str "hi", some (str "unexpected EOF")) }

/-- A `discover` package that accepts no argument. -/
def discoverNone : Discover :=
  { ParseNode := fun _ => .error (str "invalid node"),
    Hex2NodeId := fun _ => .error (str "invalid hex"),
    idString := hex }

/-! ## Lemmas on text and on `sendMessage` -/

theorem str_slash : str "/" = [47] := by decide

theorem str_chatFormat :
    str "<(%x...%x): %s\n"
      = [60, 40, 37, 120, 46, 46, 46, 37, 120, 41, 58, 32, 37, 115, 10] := by decide

theorem Split_ne_nil (s : Bytes) (sep : Nat) : Split s sep ≠ [] := by
  induction s with
  | nil => simp [Split]
  | cons c rest ih =>
    unfold Split
    split
    · simp
    · split <;> simp

theorem Split_no_sep (s : Bytes) (sep : Nat) (h : sep ∉ s) : Split s sep = [s] := by
  induction s with
  | nil => simp [Split]
  | cons c rest ih =>
    simp only [List.mem_cons, not_or] at h
    unfold Split
    rw [if_neg (fun hc => h.1 hc.symm), ih h.2]

theorem Split_append_sep (a b : Bytes) (sep : Nat) (h : sep ∉ a) :
    Split (a ++ sep :: b) sep = a :: Split b sep := by
  induction a with
  | nil => simp [Split]
  | cons c rest ih =>
    simp only [List.mem_cons, not_or] at h
    simp only [List.cons_append]
    conv_lhs => unfold Split
    rw [if_neg (fun hc => h.1 hc.symm), ih h.2]

theorem foldl_write (txt : Bytes) (l : PeerMap) (w : World) :
    l.foldl
      (fun w e =>
        match w.WriteMessage e.2 4 txt with
        | (w, some _) => w
        | (w, none) => w) w
      = { w with sent := w.sent ++ l.map (fun e => ⟨e.2.ID, 4, txt⟩) } := by
  induction l generalizing w with
  | nil => simp
  | cons e l ih =>
    simp only [List.foldl_cons, List.map_cons]
    have h : (match w.WriteMessage e.2 4 txt with
        | (w, some _) => w
        | (w, none) => w) = { w with sent := w.sent ++ [⟨e.2.ID, 4, txt⟩] } := by
      unfold World.WriteMessage
      cases e.2.WriteMessage 4 txt <;> rfl
    rw [h, ih]
    simp

theorem sendMessage_eq (w : World) (txt : Bytes) :
    sendMessage w txt
      = { w with sent := w.sent ++ w.cp.entries.map (fun e => ⟨e.2.ID, 4, txt⟩) } := by
  unfold sendMessage
  exact foldl_write txt _ w

/-! ## Lemmas on `handleMsg` -/

theorem handleMsg_chat_eq (w : World) (p : Peer) (mr : Msg)
    (htag : mr.type = 4) (hid : 3 ≤ p.ID.length) :
    handleMsg w p (.msgCh mr)
      = ({ w with stdout := w.stdout ++ (str "<(" ++ hex (p.ID.take 3) ++ str "..."
            ++ hex (p.ID.drop (p.ID.length - 3)) ++ str "): " ++ mr.ReadAll.1 ++ str "\n") },
         .ret none) := by
  have h1 : str "<(" = [60, 40] := by decide
  have h2 : str "..." = [46, 46, 46] := by decide
  have h3 : str "): " = [41, 58, 32] := by decide
  have h4 : str "\n" = [10] := by decide
  simp [handleMsg, htag, hid, World.Printf, str_chatFormat, Sprintf, formatVerb, h1, h2, h3, h4]

theorem chat_line_aabbcc :
    (str "<(" ++ hex (List.take 3 [0xAA, 0xBB, 0xCC, 0xDD, 0xEE, 0xFF]) ++ str "..."
      ++ hex (List.drop ([0xAA, 0xBB, 0xCC, 0xDD, 0xEE, 0xFF].length - 3)
          [0xAA, 0xBB, 0xCC, 0xDD, 0xEE, 0xFF]) ++ str "): " ++ str "hi" ++ str "\n")
      = str "<(aabbcc...ddeeff): hi\n" := by decide

theorem handleMsg_ret_nil (w : World) (p : Peer) (sel : Sel) (hid : 3 ≤ p.ID.length) :
    (handleMsg w p sel).2 = .ret none := by
  cases sel with
  | closeCh => rfl
  | msgCh mr =>
    by_cases h : mr.type = 4 <;> simp [handleMsg, h, hid]

theorem handleMsg_never_returns_error (w : World) (p : Peer) (sel : Sel) (err : Err) :
    (handleMsg w p sel).2 ≠ .ret (some err) := by
  cases sel with
  | closeCh => simp [handleMsg]
  | msgCh mr =>
    by_cases h : mr.type = 4 <;> by_cases hid : 3 ≤ p.ID.length <;> simp [handleMsg, h, hid]

theorem hex_length (bs : Bytes) : (hex bs).length = 2 * bs.length := by
  induction bs with
  | nil => rfl
  | cons b bs ih =>
    simp only [hex, List.flatMap_cons, List.length_append, List.length_cons,
      List.length_nil] at ih ⊢
    omega

theorem sendMessage_three_peers_example :
    (sendMessage world3 (str "hello")).sent
      = [⟨peerA.ID, 4, str "hello"⟩, ⟨peerB.ID, 4, str "hello"⟩, ⟨peerC.ID, 4, str "hello"⟩]
    ∧ peerB.WriteMessage 4 (str "hello") = some (str "broken pipe") := by
  decide

/-! ## Lemmas on the registry -/

theorem unregister_not_mem (cp : chatProtocol) (id : NodeId) :
    id ∉ (unregister cp id).keys := by
  unfold unregister chatProtocol.keys chatProtocol.entries
  cases cp.ps <;> simp [PeerMap.delete, List.mem_filter]

theorem guard_one_argument (cs : List Bytes) (h : cs.length = 2 ∧ cs.getD 1 [] ≠ []) :
    oneArgument cs.tail = true := by
  obtain ⟨hl, ha⟩ := h
  match cs, hl, ha with
  | [_, a], _, ha =>
    cases a with
    | nil => exact absurd rfl ha
    | cons x xs => rfl

/-! ## Lemmas on the registry under concurrent Runners -/

theorem select_closed (s s1 : Session) (b : Bool) (sel : Sel)
    (h : s.select b = some (sel, s1)) : s1.closed = s.closed := by
  unfold Session.select at h
  split at h
  · cases h
  · cases h; rfl
  · cases h; rfl
  · split at h <;> (cases h; rfl)

theorem select_of_closed (s : Session) (b : Bool) (h : s.closed = true) :
    ∃ sel s1, s.select b = some (sel, s1) := by
  unfold Session.select
  cases hi : s.inbox with
  | nil => simp [h]
  | cons mr rest =>
    cases b <;> simp [h]

theorem step_at_loopHead (p : Peer) (c : Proc) (b : Bool) (h : c.pc = .loopHead) :
    Run.step p c (.step b)
      = if c.s.closed then Run.leave c.w c.s p (.ret none) else { c with pc := .inHandleMsg } := by
  unfold Run.step
  simp only [h]

theorem step_at_exited (p : Peer) (c : Proc) (b : Bool) (o : Outcome) (h : c.pc = .exited o) :
    Run.step p c (.step b) = c := by
  unfold Run.step
  simp only [h]

theorem step_blocked (p : Peer) (c : Proc) (b : Bool) (h : c.pc = .inHandleMsg)
    (hs : c.s.select b = none) : Run.step p c (.step b) = c := by
  unfold Run.step
  simp only [h, hs]

theorem step_at_inHandleMsg (p : Peer) (c : Proc) (b : Bool) (sel : Sel) (s1 : Session)
    (h : c.pc = .inHandleMsg) (hs : c.s.select b = some (sel, s1)) :
    Run.step p c (.step b)
      = match handleMsg c.w p sel with
        | (w, .ret none) => { w := w, s := s1, pc := .loopHead }
        | (w, .ret (some err)) => Run.leave w s1 p (.ret (some err))
        | (w, .panic) => Run.leave w s1 p .panic := by
  unfold Run.step
  simp only [h, hs]

theorem step_handled (p : Peer) (c : Proc) (b : Bool) (sel : Sel) (s1 : Session)
    (hid : 3 ≤ p.ID.length) (h : c.pc = .inHandleMsg) (hs : c.s.select b = some (sel, s1)) :
    Run.step p c (.step b) = { w := (handleMsg c.w p sel).1, s := s1, pc := .loopHead } := by
  rw [step_at_inHandleMsg p c b sel s1 h hs]
  have hr := handleMsg_ret_nil c.w p sel hid
  rcases hm : handleMsg c.w p sel with ⟨w1, o⟩
  rw [hm] at hr
  simp only at hr
  subst hr
  rfl

theorem step_exited_inv (p : Peer) (c : Proc) (ev : Event)
    (h : ∀ o, c.pc = .exited o → p.ID ∉ c.w.cp.keys) :
    ∀ o, (Run.step p c ev).pc = .exited o → p.ID ∉ (Run.step p c ev).w.cp.keys := by
  intro o
  cases ev with
  | deliver mr => exact h o
  | closeSignal => exact h o
  | step b =>
    cases hpc : c.pc with
    | loopHead =>
      rw [step_at_loopHead p c b hpc]
      split
      · intro _; exact unregister_not_mem _ _
      · intro hc; cases hc
    | inHandleMsg =>
      cases hs : c.s.select b with
      | none =>
        rw [step_blocked p c b hpc hs]
        intro hc; rw [hpc] at hc; cases hc
      | some r =>
        obtain ⟨sel, s1⟩ := r
        rw [step_at_inHandleMsg p c b sel s1 hpc hs]
        split
        · intro hc; cases hc
        · intro _; exact unregister_not_mem _ _
        · intro _; exact unregister_not_mem _ _
    | exited o1 =>
      rw [step_at_exited p c b o1 hpc]
      exact h o

theorem Run_exited_inv (w : World) (p : Peer) (s : Session) (evs : List Event) :
    ∀ o, (Run w p s evs).pc = .exited o → p.ID ∉ (Run w p s evs).w.cp.keys := by
  unfold Run
  induction evs using List.reverseRecOn with
  | nil => intro o hc; cases hc
  | append_singleton evs ev ih =>
    rw [List.foldl_append]
    exact step_exited_inv p _ ev ih

theorem step_closed (p : Peer) (c : Proc) (ev : Event) (h : c.s.closed = true) :
    (Run.step p c ev).s.closed = true := by
  cases ev with
  | deliver mr => exact h
  | closeSignal => rfl
  | step b =>
    cases hpc : c.pc with
    | loopHead =>
      rw [step_at_loopHead p c b hpc]
      split <;> exact h
    | inHandleMsg =>
      cases hs : c.s.select b with
      | none => rw [step_blocked p c b hpc hs]; exact h
      | some r =>
        obtain ⟨sel, s1⟩ := r
        rw [step_at_inHandleMsg p c b sel s1 hpc hs]
        have := select_closed _ _ _ _ hs
        split <;> simp [Run.leave, this, h]
    | exited o1 =>
      rw [step_at_exited p c b o1 hpc]; exact h

theorem step_settled (p : Peer) (c : Proc) (ev : Event) (hid : 3 ≤ p.ID.length)
    (h : settled 2 c.pc) : settled 2 (Run.step p c ev).pc := by
  cases ev with
  | deliver mr => exact h
  | closeSignal => exact h
  | step b =>
    cases hpc : c.pc with
    | loopHead =>
      rw [step_at_loopHead p c b hpc]
      split
      · left; rfl
      · right; right; exact ⟨le_refl _, rfl⟩
    | inHandleMsg =>
      cases hs : c.s.select b with
      | none => rw [step_blocked p c b hpc hs, hpc]; right; right; exact ⟨le_refl _, rfl⟩
      | some r =>
        obtain ⟨sel, s1⟩ := r
        rw [step_handled p c b sel s1 hid hpc hs]
        right; left; exact ⟨by omega, rfl⟩
    | exited o1 =>
      rw [step_at_exited p c b o1 hpc]; exact h

theorem step_progress (p : Peer) (c : Proc) (b : Bool) (n : Nat) (hid : 3 ≤ p.ID.length)
    (hc : c.s.closed = true) (h : settled (n + 1) c.pc) :
    settled n (Run.step p c (.step b)).pc := by
  rcases h with h | ⟨_, h⟩ | ⟨hn, h⟩
  · rw [step_at_exited p c b _ h]; left; exact h
  · rw [step_at_loopHead p c b h, if_pos hc]; left; rfl
  · obtain ⟨sel, s1, hs⟩ := select_of_closed c.s b hc
    rw [step_handled p c b sel s1 hid h hs]
    right; left; exact ⟨by omega, rfl⟩

theorem settled_zero (pc : Pc) (h : settled 0 pc) : pc = .exited (.ret none) := by
  rcases h with h | ⟨h, _⟩ | ⟨h, _⟩
  · exact h
  · omega
  · omega

theorem foldl_settles (p : Peer) (hid : 3 ≤ p.ID.length) (post : List Event) :
    ∀ (c : Proc) (n : Nat), c.s.closed = true → settled n c.pc →
      n ≤ (post.filter Event.isStep).length →
      (post.foldl (Run.step p) c).pc = .exited (.ret none) := by
  induction post with
  | nil =>
    intro c n _ hs hn
    simp at hn
    subst hn
    exact settled_zero _ hs
  | cons ev post ih =>
    intro c n hc hs hn
    simp only [List.foldl_cons]
    have hc1 := step_closed p c ev hc
    cases ev with
    | deliver mr =>
      exact ih _ n hc1 hs (by simpa [List.filter, Event.isStep] using hn)
    | closeSignal =>
      exact ih _ n hc1 hs (by simpa [List.filter, Event.isStep] using hn)
    | step b =>
      have hn1 : n ≤ (post.filter Event.isStep).length + 1 := by
        simpa [List.filter, Event.isStep] using hn
      cases n with
      | zero =>
        have h0 : settled 0 (Run.step p c (.step b)).pc := by
          have := settled_zero _ hs
          rw [step_at_exited p c b _ this]
          exact hs
        exact ih _ 0 hc1 h0 (Nat.zero_le _)
      | succ m =>
        exact ih _ m hc1 (step_progress p c b m hid hc hs) (by omega)

theorem foldl_settled2 (p : Peer) (hid : 3 ≤ p.ID.length) (evs : List Event) :
    ∀ c : Proc, settled 2 c.pc → settled 2 (evs.foldl (Run.step p) c).pc := by
  induction evs with
  | nil => intro c h; exact h
  | cons ev evs ih =>
    intro c h
    exact ih _ (step_settled p c ev hid h)

/-! ## The properties of the chat protocol -/

/-- C1: whenever `Run(p)` has left (returned nil, returned an error or
panicked), the registry holds no entry for the identity of `p`, for every
initial world and every sequence of events; and once the close signal has
fired, two further steps of the goroutine are enough for `Run` to have
returned nil, the registry then holding no entry for that identity (the
identity has at least 3 bytes, so that printing a frame cannot panic). -/
theorem Run_always_unregisters (w : World) (p : Peer) (s : Session) (evs : List Event) :
    (∀ o, (Run w p s evs).pc = .exited o → p.ID ∉ (Run w p s evs).w.cp.keys)
    ∧ (∀ pre post, evs = pre ++ Event.closeSignal :: post → 3 ≤ p.ID.length →
        2 ≤ (post.filter Event.isStep).length →
        (Run w p s evs).pc = .exited (.ret none) ∧ p.ID ∉ (Run w p s evs).w.cp.keys) := by
  refine ⟨Run_exited_inv w p s evs, ?_⟩
  intro pre post he hid hn
  have hpc : (Run w p s evs).pc = .exited (.ret none) := by
    subst he
    unfold Run
    rw [List.foldl_append, List.foldl_cons]
    have h2 : settled 2 (pre.foldl (Run.step p) (Run.enter w p s)).pc :=
      foldl_settled2 p hid pre _ (Or.inr (Or.inl ⟨by omega, rfl⟩))
    exact foldl_settles p hid post _ 2 rfl h2 hn
  exact ⟨hpc, Run_exited_inv w p s evs _ hpc⟩

theorem Run_always_unregisters_witness :
    3 ≤ peerA.ID.length
    ∧ (Run world0 peerA ⟨false, [msgHi]⟩
        [.step false, .closeSignal, .step false, .step false]).pc = .exited (.ret none)
    ∧ peerA.ID ∉ (Run world0 peerA ⟨false, [msgHi]⟩
        [.step false, .closeSignal, .step false, .step false]).w.cp.keys :=
  ⟨by decide,
    (Run_always_unregisters world0 peerA ⟨false, [msgHi]⟩
      [.step false, .closeSignal, .step false, .step false]).2
      [.step false] [.step false, .step false] rfl (by decide) (by decide)⟩

/-- C2: `sendMessage(txt)` attempts exactly one write per registered peer, in
the order of the iteration, each with type tag 4 and the bytes of `txt` as
payload, whatever the writes return; it attempts `N` writes on a registry of
`N` peers and changes nothing else. -/
theorem sendMessage_writes_each_peer_once (w : World) (txt : Bytes) :
    (sendMessage w txt).sent = w.sent ++ w.cp.entries.map (fun e => ⟨e.2.ID, 4, txt⟩)
    ∧ (sendMessage w txt).sent.length = w.sent.length + w.cp.entries.length
    ∧ (sendMessage w txt).stdout = w.stdout
    ∧ (sendMessage w txt).cp = w.cp := by
  rw [sendMessage_eq]
  simp

/-- C3, as stated, fails: the line `/foo` names no recognized command, the
line `/addpeer a b` gives `addpeer` two arguments and the line `/addpeer `
gives it none but an empty one, yet `chat` writes each of them, with tag 4,
to all three registered peers. -/
theorem chat_unrecognized_command_counterexample :
    hasPrefix (str "/foo") (str "/") = true
    ∧ commandName (str "/foo") = str "foo"
    ∧ (chat discoverNone world3 (str "/foo")).sent
        = [⟨peerA.ID, 4, str "/foo"⟩, ⟨peerB.ID, 4, str "/foo"⟩, ⟨peerC.ID, 4, str "/foo"⟩]
    ∧ (chat discoverNone world3 (str "/foo")).sent ≠ world3.sent
    ∧ commandName (str "/addpeer a b") = str "addpeer"
    ∧ commandArgs (str "/addpeer a b") = [str "a", str "b"]
    ∧ (chat discoverNone world3 (str "/addpeer a b")).sent
        = [⟨peerA.ID, 4, str "/addpeer a b"⟩, ⟨peerB.ID, 4, str "/addpeer a b"⟩,
           ⟨peerC.ID, 4, str "/addpeer a b"⟩]
    ∧ commandName (str "/addpeer ") = str "addpeer"
    ∧ commandArgs (str "/addpeer ") = [[]]
    ∧ (chat discoverNone world3 (str "/addpeer ")).sent
        = [⟨peerA.ID, 4, str "/addpeer "⟩, ⟨peerB.ID, 4, str "/addpeer "⟩,
           ⟨peerC.ID, 4, str "/addpeer "⟩] := by
  decide

/-- C3, amended: on a line that begins with `/` and either names none of
`peers`, `addpeer`, `rmpeer`, `info` or names `addpeer` or `rmpeer` with
anything but exactly one argument that is not empty (no argument, an empty
argument, several arguments), `chat` performs no command action and is
`sendMessage` on the whole line: one write with tag 4 and the line as payload
per registered peer, nothing printed, no request to the server, the registry
unchanged. -/
theorem chat_unrecognized_command_is_broadcast (d : Discover) (w : World) (txt : Bytes)
    (hp : hasPrefix txt (str "/") = true)
    (h : (commandName txt ≠ str "peers" ∧ commandName txt ≠ str "addpeer"
            ∧ commandName txt ≠ str "rmpeer" ∧ commandName txt ≠ str "info")
         ∨ ((commandName txt = str "addpeer" ∨ commandName txt = str "rmpeer")
            ∧ oneArgument (commandArgs txt) = false)) :
    chat d w txt = sendMessage w txt
    ∧ (chat d w txt).sent = w.sent ++ w.cp.entries.map (fun e => ⟨e.2.ID, 4, txt⟩)
    ∧ (chat d w txt).stdout = w.stdout
    ∧ (chat d w txt).cp.server.requests = w.cp.server.requests
    ∧ (chat d w txt).cp.ps = w.cp.ps := by
  have hap : str "addpeer" ≠ str "peers" := by decide
  have hai : str "addpeer" ≠ str "info" := by decide
  have hra : str "rmpeer" ≠ str "addpeer" := by decide
  have hrp : str "rmpeer" ≠ str "peers" := by decide
  have hri : str "rmpeer" ≠ str "info" := by decide
  have key : chat d w txt = sendMessage w txt := by
    unfold chat
    simp only [hp, if_true]
    unfold commandName commandArgs at h
    generalize Split (List.drop 1 txt) 32 = cs at *
    have hg : oneArgument cs.tail = false → ¬ (cs.length = 2 ∧ cs.getD 1 [] ≠ []) := by
      intro hn hc
      rw [guard_one_argument cs hc] at hn
      cases hn
    generalize cs.headD [] = command at *
    rcases h with ⟨h1, h2, h3, h4⟩ | ⟨h1 | h1, h2⟩
    · simp [h1, h2, h3, h4]
    · have hn := hg h2
      rw [if_neg (by rw [h1]; exact hap), if_neg (fun hc => hn hc.2),
        if_neg (fun hc => hra (h1 ▸ hc.1).symm), if_neg (by rw [h1]; exact hai)]
    · have hn := hg h2
      rw [if_neg (by rw [h1]; exact hrp), if_neg (fun hc => hra (h1 ▸ hc.1)),
        if_neg (fun hc => hn hc.2), if_neg (by rw [h1]; exact hri)]
  rw [key, sendMessage_eq]
  simp

theorem chat_unrecognized_command_is_broadcast_witness :
    hasPrefix (str "/rmpeer ") (str "/") = true
    ∧ commandName (str "/rmpeer ") = str "rmpeer"
    ∧ oneArgument (commandArgs (str "/rmpeer ")) = false
    ∧ (chat discoverNone world3 (str "/rmpeer ")).stdout = []
    ∧ (chat discoverNone world3 (str "/rmpeer ")).sent
        = [⟨peerA.ID, 4, str "/rmpeer "⟩, ⟨peerB.ID, 4, str "/rmpeer "⟩,
           ⟨peerC.ID, 4, str "/rmpeer "⟩] :=
  ⟨by decide, by decide, by decide,
    (chat_unrecognized_command_is_broadcast discoverNone world3 (str "/rmpeer ") (by decide)
      (Or.inr ⟨Or.inr (by decide), by decide⟩)).2.2.1,
    by simpa [world3, chatProtocol.entries] using
      (chat_unrecognized_command_is_broadcast discoverNone world3 (str "/rmpeer ") (by decide)
        (Or.inr ⟨Or.inr (by decide), by decide⟩)).2.1⟩

/-- C4, evaluated where it fails: on a chat-text frame whose `ReadAll` returns
the bytes `hi` together with an error, `handleMsg` prints the line and
returns nil, and `Run` is back at the head of its loop with the peer still
registered, instead of having returned the error. -/
theorem handleMsg_read_error_discarded :
    msgBroken.ReadAll.2 = some (str "unexpected EOF")
    ∧ handleMsg world0 peerA (.msgCh msgBroken)
        = ({ world0 with stdout := str "<(aabbcc...ddeeff): hi\n" }, .ret none)
    ∧ (Run world0 peerA ⟨false, [msgBroken]⟩ [.step false, .step false]).pc = .loopHead
    ∧ (Run world0 peerA ⟨false, [msgBroken]⟩ [.step false, .step false]).w.cp.keys
        = [peerA.ID] := by
  refine ⟨by decide, ?_, by decide, by decide⟩
  rw [handleMsg_chat_eq world0 peerA msgBroken (by decide) (by decide)]
  have h : (str "<(" ++ hex (peerA.ID.take 3) ++ str "..."
      ++ hex (peerA.ID.drop (peerA.ID.length - 3)) ++ str "): " ++ msgBroken.ReadAll.1 ++ str "\n")
      = str "<(aabbcc...ddeeff): hi\n" := by decide
  rw [h]
  rfl

/-- C6: on a frame with type tag 4, for an identity of at least 3 bytes,
`handleMsg` appends to standard output exactly `<(`, the lowercase hex of the
first 3 identity bytes, `...`, the lowercase hex of the last 3 identity
bytes, `): `, the payload bytes and a newline, and returns nil; for identity
`0xAABBCCDDEEFF` and payload `hi` the output is `<(aabbcc...ddeeff): hi`
followed by a newline. -/
theorem handleMsg_prints_chat_line (w : World) (p : Peer) (mr : Msg)
    (htag : mr.type = 4) (hid : 3 ≤ p.ID.length) :
    handleMsg w p (.msgCh mr)
      = ({ w with stdout := w.stdout ++ (str "<(" ++ hex (p.ID.take 3) ++ str "..."
            ++ hex (p.ID.drop (p.ID.length - 3)) ++ str "): " ++ mr.ReadAll.1 ++ str "\n") },
         .ret none)
    ∧ (p.ID = [0xAA, 0xBB, 0xCC, 0xDD, 0xEE, 0xFF] → mr.ReadAll.1 = str "hi" →
        (handleMsg w p (.msgCh mr)).1.stdout = w.stdout ++ str "<(aabbcc...ddeeff): hi\n") := by
  refine ⟨handleMsg_chat_eq w p mr htag hid, ?_⟩
  intro hA hB
  rw [handleMsg_chat_eq w p mr htag hid, hA, hB]
  simp only [chat_line_aabbcc]

theorem handleMsg_prints_chat_line_witness :
    msgHi.type = 4 ∧ 3 ≤ peerA.ID.length
    ∧ (handleMsg world3 peerA (.msgCh msgHi)).1.stdout = str "<(aabbcc...ddeeff): hi\n" :=
  ⟨by decide, by decide,
    by simpa [world3] using
      (handleMsg_prints_chat_line world3 peerA msgHi (by decide) (by decide)).2 rfl rfl⟩

/-- C7: on a frame whose type tag is not 4, `handleMsg` prints nothing,
leaves the registry (and the rest of the world) unchanged and returns nil. -/
theorem handleMsg_other_tag_ignored (w : World) (p : Peer) (mr : Msg) (h : mr.type ≠ 4) :
    handleMsg w p (.msgCh mr) = (w, .ret none) := by
  simp [handleMsg, h]

theorem handleMsg_other_tag_ignored_witness :
    ({ type := 7, ReadAll := (str "hi", none) } : Msg).type ≠ 4
    ∧ handleMsg world3 peerA (.msgCh { type := 7, ReadAll := (str "hi", none) })
        = (world3, .ret none) :=
  ⟨by decide, handleMsg_other_tag_ignored world3 peerA _ (by decide)⟩

/-- C8: on a line that does not begin with `/`, `chat` is `sendMessage` on
the unchanged line: one write with tag 4 and the whole line as payload per
registered peer, nothing printed, no request to the server, the registry
unchanged. -/
theorem chat_plain_line_is_sendMessage (d : Discover) (w : World) (txt : Bytes)
    (h : hasPrefix txt (str "/") = false) :
    chat d w txt = sendMessage w txt
    ∧ (chat d w txt).sent = w.sent ++ w.cp.entries.map (fun e => ⟨e.2.ID, 4, txt⟩)
    ∧ (chat d w txt).stdout = w.stdout
    ∧ (chat d w txt).cp.server.requests = w.cp.server.requests
    ∧ (chat d w txt).cp.ps = w.cp.ps := by
  have key : chat d w txt = sendMessage w txt := by
    unfold chat
    simp [h]
  rw [key, sendMessage_eq]
  simp

theorem chat_plain_line_is_sendMessage_witness :
    hasPrefix (str "hello /peers") (str "/") = false
    ∧ (chat discoverNone world3 (str "hello /peers")).sent
        = [⟨peerA.ID, 4, str "hello /peers"⟩, ⟨peerB.ID, 4, str "hello /peers"⟩,
           ⟨peerC.ID, 4, str "hello /peers"⟩] :=
  ⟨by decide,
    by simpa [world3, chatProtocol.entries] using
      (chat_plain_line_is_sendMessage discoverNone world3 (str "hello /peers") (by decide)).2.1⟩

/-- C9: on the line `/addpeer ` followed by one argument (not empty, without a
space) that `discover.ParseNode` rejects, and on the line `/rmpeer ` followed
by one argument that `discover.Hex2NodeId` rejects, `chat` prints the error
line and nothing else, makes no request to the server, writes to no peer and
leaves the registry unchanged. -/
theorem chat_parse_failure_prints_error (d : Discover) (w : World) (arg : Bytes)
    (harg : arg ≠ []) (hsp : 32 ∉ arg) :
    (∀ err, d.ParseNode arg = .error err →
      (chat d w (str "/addpeer " ++ arg)).stdout
          = w.stdout ++ (str "addperr err: " ++ [32] ++ err ++ [10])
      ∧ (chat d w (str "/addpeer " ++ arg)).cp.server.requests = w.cp.server.requests
      ∧ (chat d w (str "/addpeer " ++ arg)).sent = w.sent
      ∧ (chat d w (str "/addpeer " ++ arg)).cp.ps = w.cp.ps)
    ∧ (∀ err, d.Hex2NodeId arg = .error err →
      (chat d w (str "/rmpeer " ++ arg)).stdout
          = w.stdout ++ (str "rmperr err: " ++ [32] ++ err ++ [10])
      ∧ (chat d w (str "/rmpeer " ++ arg)).cp.server.requests = w.cp.server.requests
      ∧ (chat d w (str "/rmpeer " ++ arg)).sent = w.sent
      ∧ (chat d w (str "/rmpeer " ++ arg)).cp.ps = w.cp.ps) := by
  have ha : str "/addpeer " = 47 :: (str "addpeer" ++ [32]) := by decide
  have hr : str "/rmpeer " = 47 :: (str "rmpeer" ++ [32]) := by decide
  have hsa : (32 : Nat) ∉ str "addpeer" := by decide
  have hsr : (32 : Nat) ∉ str "rmpeer" := by decide
  have hap : str "addpeer" ≠ str "peers" := by decide
  have hra : str "rmpeer" ≠ str "addpeer" := by decide
  have hrp : str "rmpeer" ≠ str "peers" := by decide
  have splitA : Split (str "addpeer" ++ 32 :: arg) 32 = [str "addpeer", arg] := by
    rw [Split_append_sep _ _ _ hsa, Split_no_sep _ _ hsp]
  have splitR : Split (str "rmpeer" ++ 32 :: arg) 32 = [str "rmpeer", arg] := by
    rw [Split_append_sep _ _ _ hsr, Split_no_sep _ _ hsp]
  constructor
  · intro err he
    have key : chat d w (str "/addpeer " ++ arg) = w.Println [str "addperr err: ", err] := by
      unfold chat
      simp [ha, hasPrefix, str_slash, splitA, hap, harg, he]
    rw [key]
    simp [World.Println, Sprintln]
  · intro err he
    have key : chat d w (str "/rmpeer " ++ arg) = w.Println [str "rmperr err: ", err] := by
      unfold chat
      simp [hr, hasPrefix, str_slash, splitR, hra, hrp, harg, he]
    rw [key]
    simp [World.Println, Sprintln]

theorem chat_parse_failure_prints_error_witness :
    str "not-a-uri" ≠ [] ∧ 32 ∉ str "not-a-uri"
    ∧ discoverNone.ParseNode (str "not-a-uri") = .error (str "invalid node")
    ∧ (chat discoverNone world3 (str "/addpeer " ++ str "not-a-uri")).stdout
        = str "addperr err:  invalid node\n"
    ∧ (chat discoverNone world3 (str "/addpeer " ++ str "not-a-uri")).sent = []
    ∧ (chat discoverNone world3 (str "/addpeer " ++ str "not-a-uri")).cp.server.requests = [] :=
  ⟨by decide, by decide, rfl,
    ((chat_parse_failure_prints_error discoverNone world3 (str "not-a-uri") (by decide)
      (by decide)).1 (str "invalid node") rfl).1.trans (by decide),
    ((chat_parse_failure_prints_error discoverNone world3 (str "not-a-uri") (by decide)
      (by decide)).1 (str "invalid node") rfl).2.2.1,
    ((chat_parse_failure_prints_error discoverNone world3 (str "not-a-uri") (by decide)
      (by decide)).1 (str "invalid node") rfl).2.1⟩

/-- C10, as stated, fails: a frame is pending, the close signal fires after
the loop has polled it and before the `select` of `handleMsg` runs; in that
iteration both are ready, the `select` takes the frame, and `Run` consumes
and prints it and goes back to the head of the loop. -/
theorem Run_close_after_poll_counterexample :
    (Run world0 peerA ⟨false, [msgHi]⟩ [.step true, .closeSignal]).pc = .inHandleMsg
    ∧ (Run world0 peerA ⟨false, [msgHi]⟩ [.step true, .closeSignal]).s.closed = true
    ∧ (Run world0 peerA ⟨false, [msgHi]⟩ [.step true, .closeSignal]).s.inbox = [msgHi]
    ∧ (Run world0 peerA ⟨false, [msgHi]⟩ [.step true, .closeSignal, .step false]).pc = .loopHead
    ∧ (Run world0 peerA ⟨false, [msgHi]⟩ [.step true, .closeSignal, .step false]).s.inbox = []
    ∧ (Run world0 peerA ⟨false, [msgHi]⟩ [.step true, .closeSignal, .step false]).w.stdout
        = str "<(aabbcc...ddeeff): hi\n" := by
  decide

/-- C10, amended: in every iteration of the loop of `Run` at whose head the
close signal is ready, whatever frames are pending, `Run` leaves the loop and
returns nil; no frame is consumed, nothing is printed or written, and the
identity is unregistered. -/
theorem Run_close_at_loop_head_takes_precedence (p : Peer) (c : Proc) (b : Bool)
    (hpc : c.pc = .loopHead) (hclosed : c.s.closed = true) :
    (Run.step p c (.step b)).pc = .exited (.ret none)
    ∧ (Run.step p c (.step b)).s.inbox = c.s.inbox
    ∧ (Run.step p c (.step b)).w.stdout = c.w.stdout
    ∧ (Run.step p c (.step b)).w.sent = c.w.sent
    ∧ p.ID ∉ (Run.step p c (.step b)).w.cp.keys := by
  rw [step_at_loopHead p c b hpc, if_pos hclosed]
  exact ⟨rfl, rfl, rfl, rfl, unregister_not_mem _ _⟩

theorem Run_close_at_loop_head_takes_precedence_witness :
    (Run world0 peerA ⟨true, [msgHi]⟩ []).pc = .loopHead
    ∧ (Run world0 peerA ⟨true, [msgHi]⟩ []).s.closed = true
    ∧ (Run world0 peerA ⟨true, [msgHi]⟩ [.step false]).pc = .exited (.ret none)
    ∧ (Run world0 peerA ⟨true, [msgHi]⟩ [.step false]).s.inbox = [msgHi]
    ∧ (Run world0 peerA ⟨true, [msgHi]⟩ [.step false]).w.stdout = [] :=
  ⟨rfl, rfl,
    (Run_close_at_loop_head_takes_precedence peerA (Run world0 peerA ⟨true, [msgHi]⟩ [])
      false rfl rfl).1,
    (Run_close_at_loop_head_takes_precedence peerA (Run world0 peerA ⟨true, [msgHi]⟩ [])
      false rfl rfl).2.1,
    (Run_close_at_loop_head_takes_precedence peerA (Run world0 peerA ⟨true, [msgHi]⟩ [])
      false rfl rfl).2.2.1⟩

end Chat
